import Mathlib

/-!
Verification of the rmm-psa-agent-v2 core against its specification.

The development shallowly embeds the three core components of the agent:

* the IPC manager (helper-process orchestrator): retry loop, per-invocation
  promise-settlement event machine, timeout/kill escalation, stdout parsing;
* the resilient WebSocket protocol client: send/queue/flush, reconnect
  backoff schedule, open/close handlers;
* the update helper: version comparison, update check, and the
  backup/replace install sequence over an abstract file system.

Pure functions of the source are translated as Lean functions; the
event-driven parts are translated as explicit state machines whose events
are the callbacks the Node.js event loop would deliver (process close,
process error, timer fire, explicit kill).
-/

/- ### IPC manager: errors and retry loop (src IPCManager.executeHelper) -/

/-- Failure modes of a single helper invocation attempt. -/
inductive HelperError where
  | helperNotFound (path : String)
  | helperTimeout (ms : Nat)
  | processError (msg : String)
  | nonZeroExit (code : Int) (msg : String)
deriving DecidableEq, Repr

/-- Delay slept after failed attempt number `attempt` (0-based) before the
next attempt: the source sleeps `1000 * (attempt + 1)` milliseconds. -/
def retryDelayMs (attempt : Nat) : Nat := 1000 * (attempt + 1)

/-- The retry loop of `executeHelper`, started at attempt index `attempt`
with `remaining` additional attempts allowed.  Returns the list of delays
slept between attempts and the final outcome; `once a` is the outcome of
attempt number `a`.  The source loops `for attempt in 0..retryAttempts`,
sleeping only when a further attempt remains, and finally rethrows the last
attempt's error. -/
def runAttempts {R : Type} (once : Nat → Except HelperError R) :
    Nat → Nat → List Nat × Except HelperError R
  | attempt, remaining =>
    match once attempt, remaining with
    | Except.ok r, _ => ([], Except.ok r)
    | Except.error e, 0 => ([], Except.error e)
    | Except.error _, n + 1 =>
      let rest := runAttempts once (attempt + 1) n
      (retryDelayMs attempt :: rest.1, rest.2)

/-- Whole `executeHelper` retry loop: first attempt is number 0 and
`retryAttempts` further attempts are allowed (source default 2). -/
def executeHelper {R : Type} (once : Nat → Except HelperError R)
    (retryAttempts : Nat) : List Nat × Except HelperError R :=
  runAttempts once 0 retryAttempts

/-- Number of calls to `_executeHelperOnce` the loop performs, starting at
attempt index `attempt` with `remaining` additional attempts allowed. -/
def attemptsMade {R : Type} (once : Nat → Except HelperError R) :
    Nat → Nat → Nat
  | attempt, remaining =>
    match once attempt, remaining with
    | Except.ok _, _ => 1
    | Except.error _, 0 => 1
    | Except.error _, n + 1 => 1 + attemptsMade once (attempt + 1) n

/-- Resolved helper executable path: `path.join(helpersPath, name + ext)`. -/
def getHelperPath (helpersPath helperName ext : String) : String :=
  helpersPath ++ "/" ++ helperName ++ ext

/-- Outcome of one `_executeHelperOnce` attempt as a function of the
file-system existence check: the source rejects with the helper-not-found
error before spawning whenever `fs.existsSync(helperPath)` is false, and
otherwise the outcome is that of the spawned process. -/
def executeHelperOnceOutcome {R : Type} (fsExistsAt : String → Bool)
    (helperPath : String) (processOutcome : Except HelperError R) :
    Except HelperError R :=
  if fsExistsAt helperPath then processOutcome
  else Except.error (HelperError.helperNotFound helperPath)

/- ### IPC manager: per-invocation settlement event machine
(src IPCManager._executeHelperOnce handlers and killCommand) -/

/-- How the invocation's promise was settled. -/
inductive SettleKind where
  | resolvedOk
  | rejectedExit (code : Int)
  | rejectedError
  | rejectedTimeout
deriving DecidableEq, Repr

/-- Settlement performed by the close handler: exit code 0 resolves with the
parsed response, any other exit code rejects. -/
def closeSettle (code : Int) : SettleKind :=
  if code = 0 then SettleKind.resolvedOk else SettleKind.rejectedExit code

/-- Events the Node.js event loop can deliver to one running invocation:
the process close event, the process error event, the timeout timer firing,
and an explicit `killCommand` cancellation. -/
inductive OnceEvent where
  | closeEv (code : Int)
  | errorEv
  | timeoutFire
  | killCommandEv
deriving DecidableEq, Repr

/-- State of one invocation after spawn: the `isResolved` guard flag, whether
the `ActiveProcessRecord` map still holds the correlation id, whether
`clearTimeout` has run on the timeout timer, and the list of settlements
performed so far on the invocation's promise. -/
structure OnceState where
  isResolved : Bool
  recordPresent : Bool
  timeoutCleared : Bool
  settles : List SettleKind
deriving DecidableEq, Repr

/-- State right after spawning: not resolved, record inserted, timer armed. -/
def initOnceState : OnceState :=
  { isResolved := false, recordPresent := true, timeoutCleared := false,
    settles := [] }

/-- One event-loop step, faithful to the handlers in the source: each of the
close / error / timeout handlers returns early when `isResolved` is already
set, otherwise sets it, deletes the `activeCommands` entry and settles the
promise; the second close handler clears the timeout; a cleared timer never
fires; `killCommand` kills the process and deletes the record but never
touches the promise (resolution then comes from the close event). -/
def onceStep (s : OnceState) : OnceEvent → OnceState
  | OnceEvent.closeEv code =>
    let s1 :=
      if s.isResolved then s
      else { s with isResolved := true, recordPresent := false,
                    settles := s.settles ++ [closeSettle code] }
    { s1 with timeoutCleared := true }
  | OnceEvent.errorEv =>
    if s.isResolved then s
    else { s with isResolved := true, recordPresent := false,
                  settles := s.settles ++ [SettleKind.rejectedError] }
  | OnceEvent.timeoutFire =>
    if s.timeoutCleared then s
    else if s.isResolved then s
    else { s with isResolved := true, recordPresent := false,
                  settles := s.settles ++ [SettleKind.rejectedTimeout] }
  | OnceEvent.killCommandEv =>
    if s.recordPresent then { s with recordPresent := false } else s

/-- Run the invocation machine on a whole event-loop trace. -/
def runOnce (es : List OnceEvent) : OnceState :=
  es.foldl onceStep initOnceState

/-- An event whose handler settles the promise when it is still pending. -/
def settlingEvent : OnceEvent → Bool
  | OnceEvent.closeEv _ => true
  | OnceEvent.errorEv => true
  | OnceEvent.timeoutFire => true
  | OnceEvent.killCommandEv => false

/- ### IPC manager: timeout kill escalation (src timeout handler) -/

/-- Signals the timeout handler can send. -/
inductive KSignal where
  | sigterm
  | sigkill
deriving DecidableEq, Repr

/-- Spawned child process as the timeout handler observes it.  `killed` is
Node.js `subprocess.killed`: true once `subprocess.kill()` successfully sent
a signal; it does not say whether the process has exited. -/
structure ChildProc where
  exited : Bool
  killed : Bool
  signalsSent : List KSignal
deriving DecidableEq, Repr

/-- Node.js `subprocess.kill(sig)`: sends the signal and sets `killed`. -/
def childKill (c : ChildProc) (sig : KSignal) : ChildProc :=
  { c with killed := true, signalsSent := c.signalsSent ++ [sig] }

/-- Fixed grace period before the forceful-kill check, independent of the
configured timeout: the source hard-codes 5000 ms. -/
def graceDelayMs : Nat := 5000

/-- Kill step of the timeout handler: `if (!child.killed) \x7b kill SIGTERM;
schedule force-kill check \x7d`.  Returns the child state and whether the
grace-period force-kill check was scheduled. -/
def timeoutHandlerChild (c : ChildProc) : ChildProc × Bool :=
  if c.killed then (c, false) else (childKill c KSignal.sigterm, true)

/-- The scheduled force-kill check, run `graceDelayMs` later:
`if (!child.killed) child.kill(SIGKILL)`. -/
def graceKillTask (c : ChildProc) : ChildProc :=
  if c.killed then c else childKill c KSignal.sigkill

/- ### JavaScript string primitives

The source uses the JavaScript primitives `split`, `trim`, `startsWith` and
`Number`; they are embedded here as executable structural recursions over
the character list of a string (all separators in the source are single
characters). -/

/-- JavaScript `split(sep)` on a character list: splitting never yields an
empty group list, the empty input gives one empty group, and each separator
occurrence starts a new group. -/
def jsSplitList (sep : Char) : List Char → List (List Char)
  | [] => [[]]
  | c :: cs =>
    match jsSplitList sep cs with
    | [] => [[]]
    | g :: gs => if c = sep then [] :: g :: gs else (c :: g) :: gs

/-- JavaScript `s.split(sep)` for a one-character separator. -/
def jsSplitOn (sep : Char) (s : String) : List String :=
  (jsSplitList sep s.data).map String.mk

/-- Whitespace trimming on a character list: drop leading and trailing
whitespace. -/
def jsTrimList (cs : List Char) : List Char :=
  (((cs.dropWhile Char.isWhitespace).reverse).dropWhile Char.isWhitespace).reverse

/-- JavaScript `s.trim()`. -/
def jsTrim (s : String) : String := String.mk (jsTrimList s.data)

/-- JavaScript `s.startsWith(c)` for a one-character probe. -/
def jsStartsWithChar (c : Char) (s : String) : Bool :=
  match s.data with
  | [] => false
  | d :: _ => d = c

/- ### IPC manager: helper stdout parsing (src IPCManager._parseHelperResponse
and the exit-code dispatch of the close handler) -/

/-- Result of parsing helper stdout: either a parsed JSON value or a
synthesized success object carrying the trimmed raw output as its message. -/
inductive HelperResponse (J : Type) where
  | json (j : J)
  | synthesized (message : String)
deriving DecidableEq, Repr

/-- Line scan of `_parseHelperResponse`: walk the lines in order; on a line
whose trimmed form starts with a brace or bracket, try to parse it and
return the value on success, otherwise continue with the next line. -/
def findJsonLine {J : Type} (parse : String → Option J) :
    List String → Option J
  | [] => none
  | l :: ls =>
    let t := jsTrim l
    if jsStartsWithChar '\x7b' t || jsStartsWithChar '[' t then
      match parse t with
      | some j => some j
      | none => findJsonLine parse ls
    else findJsonLine parse ls

/-- Full `_parseHelperResponse`: parse the whole trimmed output; on failure
scan line by line; if nothing parses, synthesize a success response whose
message is the trimmed raw output.  `parse` abstracts `JSON.parse`
(returning `none` where `JSON.parse` would throw). -/
def parseHelperResponse {J : Type} (parse : String → Option J)
    (output : String) : HelperResponse J :=
  match parse (jsTrim output) with
  | some j => HelperResponse.json j
  | none =>
    match findJsonLine parse (jsSplitOn '\n' output) with
    | some j => HelperResponse.json j
    | none => HelperResponse.synthesized (jsTrim output)

/-- Outcome the close handler produces from the exit code and the collected
output: exit code 0 resolves with the parsed response, any other code
rejects carrying trimmed stderr, or trimmed stdout when stderr is empty. -/
inductive CloseOutcome (J : Type) where
  | ok (r : HelperResponse J)
  | nonZeroExit (code : Int) (msg : String)
deriving DecidableEq, Repr

/-- Close-handler dispatch on the exit code (src close handler). -/
def closeHandlerResult {J : Type} (parse : String → Option J) (code : Int)
    (stdout stderr : String) : CloseOutcome J :=
  if code = 0 then CloseOutcome.ok (parseHelperResponse parse stdout)
  else CloseOutcome.nonZeroExit code
    (if jsTrim stderr = "" then jsTrim stdout else jsTrim stderr)

/-- Specification-side selector for the line scan, following the spec's
words: the first line whose trimmed form starts with a brace or bracket and
parses as JSON. -/
def firstJsonLineSpec {J : Type} (parse : String → Option J)
    (ls : List String) : Option J :=
  match ls.find? (fun l =>
      (jsStartsWithChar '\x7b' (jsTrim l) || jsStartsWithChar '[' (jsTrim l))
        && (parse (jsTrim l)).isSome) with
  | some l => parse (jsTrim l)
  | none => none

/- ### WebSocket protocol client (src lib/ws-client.js) -/

/-- Events the client emits to its caller through the EventEmitter. -/
inductive WsEmit where
  | connected
  | disconnected (code : Int)
  | errorEmit
deriving DecidableEq, Repr

/-- Writes delivered to the transport (`ws.send`).  `M` is the type of
application messages handed to `send`. -/
inductive WsWrite (M : Type) where
  | hello
  | payload (m : M)
  | heartbeatMsg
deriving DecidableEq, Repr

/-- Observable actions of the client, in the order they are performed. -/
inductive WsAction (M : Type) where
  | write (w : WsWrite M)
  | startHeartbeatTimer
  | stopHeartbeatTimer
  | emit (e : WsEmit)
  | scheduleRetry (delayMs : ℚ)
  | logError (msg : String)
deriving DecidableEq, Repr

/-- Mutable state of `WebSocketClient`. -/
structure WsState (M : Type) where
  isConnected : Bool
  shouldReconnect : Bool
  reconnectAttempts : Nat
  messageQueue : List M
  heartbeatRunning : Bool
deriving DecidableEq, Repr

/-- Constructor defaults: `maxReconnectAttempts = 10`. -/
def maxReconnectAttempts : Nat := 10

/-- Constructor defaults: `reconnectDelay = 5000` milliseconds. -/
def reconnectDelay : ℚ := 5000

/-- `scheduleReconnect`: give up (log only, schedule nothing, change
nothing) once the attempt counter has reached the maximum; otherwise
increment the counter and schedule a retry after
`reconnectDelay * 1.5 ^ (reconnectAttempts - 1)` ms, the exponent taken
after the increment. -/
def scheduleReconnect {M : Type} (s : WsState M) :
    WsState M × List (WsAction M) :=
  if s.reconnectAttempts ≥ maxReconnectAttempts then
    (s, [WsAction.logError "Max reconnection attempts reached, giving up"])
  else
    ({ s with reconnectAttempts := s.reconnectAttempts + 1 },
     [WsAction.scheduleRetry (reconnectDelay * (3 / 2 : ℚ) ^ s.reconnectAttempts)])

/-- `send`: while not connected, append the message to the queue and return
without writing; while connected, write it to the transport immediately. -/
def send {M : Type} (s : WsState M) (m : M) : WsState M × List (WsAction M) :=
  if s.isConnected then (s, [WsAction.write (WsWrite.payload m)])
  else ({ s with messageQueue := s.messageQueue ++ [m] }, [])

/-- Send each message of a list in order through `send`. -/
def sendMany {M : Type} (s : WsState M) : List M → WsState M × List (WsAction M)
  | [] => (s, [])
  | m :: ms =>
    let first := send s m
    let rest := sendMany first.1 ms
    (rest.1, first.2 ++ rest.2)

/-- `flushMessageQueue`: send every queued message in order, then clear the
queue. -/
def flushMessageQueue {M : Type} (s : WsState M) :
    WsState M × List (WsAction M) :=
  let flushed := sendMany s s.messageQueue
  ({ flushed.1 with messageQueue := [] }, flushed.2)

/-- `handleOpen`: mark connected, reset the attempt counter, write the
`agent_hello` identification message, flush the queue, start the heartbeat
timer, then emit `connected` to the caller. -/
def handleOpen {M : Type} (s : WsState M) : WsState M × List (WsAction M) :=
  let s1 := { s with isConnected := true, reconnectAttempts := 0 }
  let flushed := flushMessageQueue s1
  ({ flushed.1 with heartbeatRunning := true },
   WsAction.write WsWrite.hello :: flushed.2
     ++ [WsAction.startHeartbeatTimer, WsAction.emit WsEmit.connected])

/-- `handleClose`: mark disconnected, stop the heartbeat timer, emit
`disconnected`, and, when the client intends to keep running, run
`scheduleReconnect`. -/
def handleClose {M : Type} (s : WsState M) (code : Int) :
    WsState M × List (WsAction M) :=
  let s1 := { s with isConnected := false, heartbeatRunning := false }
  if s1.shouldReconnect then
    let sched := scheduleReconnect s1
    (sched.1,
     WsAction.stopHeartbeatTimer :: WsAction.emit (WsEmit.disconnected code)
       :: sched.2)
  else
    (s1, [WsAction.stopHeartbeatTimer, WsAction.emit (WsEmit.disconnected code)])

/-- External events driving the client: a `send` call, a successful
handshake (transport open event), a transport close event. -/
inductive WsEvent (M : Type) where
  | sendEv (m : M)
  | openEv
  | closeEvt (code : Int)
deriving DecidableEq, Repr

/-- One driver step, accumulating the performed actions. -/
def wsStep {M : Type} (p : WsState M × List (WsAction M)) (e : WsEvent M) :
    WsState M × List (WsAction M) :=
  match e with
  | WsEvent.sendEv m =>
    let r := send p.1 m
    (r.1, p.2 ++ r.2)
  | WsEvent.openEv =>
    let r := handleOpen p.1
    (r.1, p.2 ++ r.2)
  | WsEvent.closeEvt c =>
    let r := handleClose p.1 c
    (r.1, p.2 ++ r.2)

/-- Run the client on a whole event sequence. -/
def wsRun {M : Type} (s0 : WsState M) (es : List (WsEvent M)) :
    WsState M × List (WsAction M) :=
  es.foldl wsStep (s0, [])

/-- Application messages written to the transport, in write order. -/
def payloadsOf {M : Type} (acts : List (WsAction M)) : List M :=
  acts.filterMap (fun a =>
    match a with
    | WsAction.write (WsWrite.payload m) => some m
    | _ => none)

/-- Messages handed to `send`, in call order. -/
def sendsOf {M : Type} (es : List (WsEvent M)) : List M :=
  es.filterMap (fun e =>
    match e with
    | WsEvent.sendEv m => some m
    | _ => none)

/-- Iterate the state change of `scheduleReconnect` (consecutive reconnect
failures with no intervening successful open). -/
def iterSchedule {M : Type} (s : WsState M) : Nat → WsState M
  | 0 => s
  | n + 1 => iterSchedule (scheduleReconnect s).1 n

/- ### Update helper: version comparison and update check
(src helpers/update-helper.js compareVersions / checkForUpdates) -/

/-- A JavaScript number as the version comparator sees one: NaN, an
infinity, or a finite value.  Every IEEE double is exactly one of these
(finite doubles are rationals), so a function `String → JsNum` can
represent the JavaScript `Number` builtin exactly; the builtin itself is
abstracted below, the way `JSON.parse` is abstracted for response
parsing.  The two zeroes of IEEE are collapsed into `finite 0`, which the
comparator cannot distinguish. -/
inductive JsNum where
  | nan
  | posInf
  | negInf
  | finite (q : ℚ)
deriving DecidableEq, Repr

/-- JavaScript `x || 0` on a number: NaN and zero are the falsy numbers
and yield 0; every other number passes through unchanged — in particular
negative numbers do. -/
def jsOr0 : JsNum → JsNum
  | JsNum.nan => JsNum.finite 0
  | v => v

/-- JavaScript `<` on numbers: false whenever either side is NaN, the
usual order on infinities and finite values otherwise. -/
def jsLt : JsNum → JsNum → Bool
  | JsNum.nan, _ => false
  | _, JsNum.nan => false
  | JsNum.posInf, _ => false
  | _, JsNum.posInf => true
  | JsNum.negInf, JsNum.negInf => false
  | JsNum.negInf, JsNum.finite _ => true
  | JsNum.finite _, JsNum.negInf => false
  | JsNum.finite q, JsNum.finite r => decide (q < r)

/-- Version parts: `v.split(".").map(Number)`, the `Number` builtin
abstracted as the part valuation `val`. -/
def versionParts (val : String → JsNum) (v : String) : List JsNum :=
  (jsSplitOn '.' v).map val

/-- Tail of the comparison loop once one side is exhausted: the exhausted
side reads as 0 at every position, so each remaining coerced part is
compared against 0.  `sign` is the loop's result when the present side
wins a comparison: 1 when the present side is the left list, -1 when it is
the right list; a present part below 0 makes the exhausted side win. -/
def cmpVsZero (sign : Int) : List JsNum → Int
  | [] => 0
  | v :: vs =>
    if jsLt (JsNum.finite 0) (jsOr0 v) then sign
    else if jsLt (jsOr0 v) (JsNum.finite 0) then -sign
    else cmpVsZero sign vs

/-- The comparison loop of `compareVersions`: at each position the part
values coerced by `|| 0` are compared in the JavaScript number order, a
missing part reading as 0; the first difference decides. -/
def cmpParts : List JsNum → List JsNum → Int
  | [], bs => cmpVsZero (-1) bs
  | a :: as, [] => cmpVsZero 1 (a :: as)
  | a :: as, b :: bs =>
    if jsLt (jsOr0 b) (jsOr0 a) then 1
    else if jsLt (jsOr0 a) (jsOr0 b) then -1
    else cmpParts as bs

/-- `compareVersions(a, b)` of the source, the `Number` builtin abstracted
as the part valuation `val`. -/
def compareVersions (val : String → JsNum) (a b : String) : Int :=
  cmpParts (versionParts val a) (versionParts val b)

/-- `checkForUpdates` reports an update exactly when
`compareVersions(latest, current) > 0`. -/
def hasUpdate (val : String → JsNum) (latestVersion currentVersion : String) :
    Bool :=
  compareVersions val latestVersion currentVersion > 0

/-- Coerced part value at position `i`: a present part coerced by `|| 0`,
a missing part reading as 0 (`undefined || 0`). -/
def partValAt (xs : List JsNum) (i : Nat) : JsNum :=
  jsOr0 (xs.getD i (JsNum.finite 0))

/-- Specification-side strict order on part lists: at some position the
left value is strictly below the right one in the JavaScript number order,
while every earlier position agrees. -/
def specLt (xs ys : List JsNum) : Prop :=
  ∃ i, jsLt (partValAt xs i) (partValAt ys i) = true
    ∧ ∀ j, j < i → partValAt xs j = partValAt ys j

/-- Specification-side equality on part lists: every coerced position
agrees. -/
def specEq (xs ys : List JsNum) : Prop := ∀ i, partValAt xs i = partValAt ys i

/- ### Update helper: install sequence over an abstract file system
(src helpers/update-helper.js installUpdate / downloadUpdate) -/

/-- Abstract file system: the set of paths that exist, as a list. -/
structure FS where
  files : List String
deriving DecidableEq, Repr

/-- `fs.existsSync`. -/
def fsExistsAt (fs : FS) (p : String) : Bool := fs.files.contains p

/-- Success or failure of each fallible effect in the install sequence.
`fs.copyFileSync` may also fail because the source file does not exist;
`stopAgentService` swallows its own errors in the source and so has no
oracle. -/
structure InstallOracles where
  backupCopyOk : Bool
  replaceCopyOk : Bool
  chmodOk : Bool
  startServiceOk : Bool
  unlinkOk : Bool
deriving DecidableEq, Repr

/-- `fs.copyFileSync(src, dst)`: succeeds only when the I/O oracle allows
it and the source path exists; on success the destination path exists. -/
def copyFileSyncFs (ok : Bool) (fs : FS) (src dst : String) : Option FS :=
  if ok && fsExistsAt fs src then some { files := dst :: fs.files } else none

/-- Destructive steps of `installUpdate`, in the order performed. -/
inductive InstallAction where
  | copyFileAction (src dst : String)
  | stopServiceAction
  | chmodAction (p : String)
  | startServiceAction
  | unlinkAction (p : String)
deriving DecidableEq, Repr

/-- Result of `installUpdate`. -/
inductive InstallResult where
  | installed (backupPath : String)
  | installError (msg : String)
deriving DecidableEq, Repr

/-- `installUpdate`, with the successfully performed destructive steps
recorded in order: check that the downloaded update file exists, copy the
running executable to the backup path, stop the service, copy the update
over the running executable, restore permissions on non-Windows platforms,
restart the service, delete the update file.  A thrown error at any step is
caught by the surrounding try/catch, which returns an error result without
running the remaining steps. -/
def installUpdate (fs : FS) (orc : InstallOracles)
    (currentPath backupPath updatePath : String) (isWin : Bool) :
    List InstallAction × FS × InstallResult :=
  if fsExistsAt fs updatePath = false then
    ([], fs, InstallResult.installError "Update file not found. Run download first.")
  else
    match copyFileSyncFs orc.backupCopyOk fs currentPath backupPath with
    | none => ([], fs, InstallResult.installError "backup copy failed")
    | some fs1 =>
      let acts1 := [InstallAction.copyFileAction currentPath backupPath,
                    InstallAction.stopServiceAction]
      match copyFileSyncFs orc.replaceCopyOk fs1 updatePath currentPath with
      | none => (acts1, fs1, InstallResult.installError "replace copy failed")
      | some fs2 =>
        let acts2 := acts1 ++ [InstallAction.copyFileAction updatePath currentPath]
        if isWin = false && orc.chmodOk = false then
          (acts2, fs2, InstallResult.installError "chmod failed")
        else
          let acts3 := acts2 ++ (if isWin then [] else [InstallAction.chmodAction currentPath])
          if orc.startServiceOk = false then
            (acts3, fs2, InstallResult.installError "Failed to start service")
          else
            let acts4 := acts3 ++ [InstallAction.startServiceAction]
            if orc.unlinkOk = false then
              (acts4, fs2, InstallResult.installError "unlink failed")
            else
              (acts4 ++ [InstallAction.unlinkAction updatePath],
               { files := fs2.files.erase updatePath },
               InstallResult.installed backupPath)

/-- `path.join(dir, name)` as used for the temp and backup paths. -/
def pathJoin (dir name : String) : String := dir ++ "/" ++ name

/-- `url.split("/").pop()`: the basename of a download URL. -/
def urlBasename (url : String) : String :=
  ((jsSplitOn '/' url).getLast?).getD ""

/-- Where `downloadUpdate` saves the artifact: the temp directory joined
with the basename of the download URL. -/
def downloadSavePath (tempDir url : String) : String :=
  pathJoin tempDir (urlBasename url)

/-- The fixed file name `installUpdate(version)` looks for:
`agent-v2-<version>-<platform>-<arch>` with `.exe` appended on Windows. -/
def installFilename (version platform arch : String) (isWin : Bool) : String :=
  "agent-v2-" ++ version ++ "-" ++ platform ++ "-" ++ arch
    ++ (if isWin then ".exe" else "")

/-- The full path `installUpdate(version)` probes in the temp directory. -/
def installLookupPath (tempDir version platform arch : String)
    (isWin : Bool) : String :=
  pathJoin tempDir (installFilename version platform arch isWin)

/-- Invariant of the settlement machine: a pending invocation has no
settlements and a resolved one exactly one; a resolved invocation's record
has been removed; the timer is only ever cleared at or after resolution. -/
def OnceInv (s : OnceState) : Prop :=
  (s.isResolved = false → s.settles = [])
  ∧ (s.isResolved = true → s.settles.length = 1)
  ∧ (s.isResolved = true → s.recordPresent = false)
  ∧ (s.timeoutCleared = true → s.isResolved = true)

/- ### Lemmas about the retry loop -/

/-- When every attempt fails, the loop from attempt `s` with `n` further
attempts sleeps the linearly increasing delays and surfaces the error of
the last attempt, number `s + n`. -/
theorem runAttempts_allFail {R : Type} (f : Nat → HelperError) :
    ∀ (n s : Nat),
      runAttempts (R := R) (fun a => Except.error (f a)) s n
        = ((List.range n).map (fun k => retryDelayMs (s + k)),
           Except.error (f (s + n))) := by
  intro n
  induction n with
  | zero => intro s; simp [runAttempts]
  | succ m ih =>
    intro s
    simp only [runAttempts, ih (s + 1), List.range_succ_eq_map, List.map_cons,
      List.map_map, Prod.mk.injEq]
    refine ⟨?_, by congr 2; omega⟩
    simp only [Nat.add_zero, List.cons.injEq, Function.comp, true_and]
    apply List.map_congr_left
    intro k _
    congr 1
    omega

/-- When every attempt fails, the loop performs `n + 1` attempts. -/
theorem attemptsMade_allFail {R : Type} (f : Nat → HelperError) :
    ∀ (n s : Nat),
      attemptsMade (R := R) (fun a => Except.error (f a)) s n = n + 1 := by
  intro n
  induction n with
  | zero => intro s; simp [attemptsMade]
  | succ m ih => intro s; simp [attemptsMade, ih (s + 1)]; omega

/- ### Claim C1 -/

/-- C1 (counterexample): with the executable path missing
(`fs.existsSync` false everywhere) and the default two retry attempts,
`executeHelper` performs 3 attempts — not 1 — sleeping the retry delays
1000 ms and 2000 ms in between, before surfacing the helper-not-found
error: the claim that a missing executable fails on the first attempt with
no retries is false of the code. -/
theorem executeHelper_notFound_retried_cx :
    attemptsMade (fun _ => executeHelperOnceOutcome (fun _ => false)
        "/agent/helpers/system-helper" (Except.ok 0)) 0 2 = 3
    ∧ attemptsMade (fun _ => executeHelperOnceOutcome (fun _ => false)
        "/agent/helpers/system-helper" (Except.ok 0)) 0 2 ≠ 1
    ∧ (executeHelper (fun _ => executeHelperOnceOutcome (fun _ => false)
        "/agent/helpers/system-helper" (Except.ok 0)) 2).1 = [1000, 2000]
    ∧ (executeHelper (fun _ => executeHelperOnceOutcome (fun _ => false)
        "/agent/helpers/system-helper" (Except.ok 0)) 2).2
      = Except.error
          (HelperError.helperNotFound "/agent/helpers/system-helper") := by
  refine ⟨rfl, by decide, rfl, rfl⟩

/-- C1 (amended): `executeHelper` treats every failure alike, the
helper-not-found failure included: when the resolved executable path does
not exist, every attempt fails with `HelperNotFound` and the loop still
performs the initial attempt plus all `retries` configured additional
attempts, sleeping the linearly increasing delay `1000 * k` ms before retry
`k`, and finally surfaces `HelperNotFound`; in general, when every attempt
fails the loop performs `retries + 1` attempts and surfaces the last
attempt's error. -/
theorem executeHelper_retry_policy (R : Type) (retries : Nat) :
    (∀ (fsx : String → Bool) (p : String) (po : Except HelperError R),
       fsx p = false →
       executeHelper (fun _ => executeHelperOnceOutcome fsx p po) retries
         = ((List.range retries).map retryDelayMs,
            Except.error (HelperError.helperNotFound p))
       ∧ attemptsMade (fun _ => executeHelperOnceOutcome fsx p po) 0 retries
         = retries + 1)
    ∧ (∀ f : Nat → HelperError,
       executeHelper (R := R) (fun a => Except.error (f a)) retries
         = ((List.range retries).map retryDelayMs, Except.error (f retries))
       ∧ attemptsMade (R := R) (fun a => Except.error (f a)) 0 retries
         = retries + 1) := by
  have hgen : ∀ f : Nat → HelperError,
      executeHelper (R := R) (fun a => Except.error (f a)) retries
        = ((List.range retries).map retryDelayMs, Except.error (f retries))
      ∧ attemptsMade (R := R) (fun a => Except.error (f a)) 0 retries
        = retries + 1 := by
    intro f
    constructor
    · rw [executeHelper, runAttempts_allFail f retries 0]
      simp
    · exact attemptsMade_allFail f retries 0
  constructor
  · intro fsx p po hp
    have hfun : (fun _ : Nat => executeHelperOnceOutcome fsx p po)
        = fun _ : Nat =>
            Except.error (HelperError.helperNotFound p) := by
      funext a
      simp [executeHelperOnceOutcome, hp]
    rw [executeHelper, hfun, ← executeHelper]
    have h := hgen (fun _ => HelperError.helperNotFound p)
    rw [executeHelper] at h
    refine ⟨h.1, ?_⟩
    have h2 := h.2
    rw [show (fun a : Nat =>
        (Except.error (HelperError.helperNotFound p) : Except HelperError R))
      = fun a : Nat =>
        Except.error ((fun _ : Nat => HelperError.helperNotFound p) a) from rfl]
    exact h2
  · exact hgen

/-- C1 (witness): the amended theorem applied at a concrete missing path
with the default two retries. -/
theorem executeHelper_retry_policy_witness :
    executeHelper (fun _ => executeHelperOnceOutcome (fun _ => false)
        "/agent/helpers/network-helper" (Except.ok 7)) 2
      = ([1000, 2000],
         Except.error
           (HelperError.helperNotFound "/agent/helpers/network-helper")) := by
  have h := ((executeHelper_retry_policy Nat 2).1
    (fun _ => false) "/agent/helpers/network-helper" (Except.ok 7) rfl).1
  simpa using h

/- ### Claim C9 -/

/-- C9 (code bug): for a process that ignores the graceful signal and never
exits, the timeout handler sends SIGTERM and schedules the grace-period
check, but because sending SIGTERM itself sets the `killed` flag the check
consults, the check is a no-op and SIGKILL is never sent even though the
process has still not exited after the 5000 ms grace period — contradicting
the handler's own force-kill comment and the specified two-stage
escalation. -/
theorem timeoutHandler_never_escalates_to_sigkill :
    (timeoutHandlerChild { exited := false, killed := false, signalsSent := [] }).1.signalsSent
      = [KSignal.sigterm]
    ∧ (timeoutHandlerChild { exited := false, killed := false, signalsSent := [] }).2 = true
    ∧ graceKillTask
        (timeoutHandlerChild { exited := false, killed := false, signalsSent := [] }).1
      = (timeoutHandlerChild { exited := false, killed := false, signalsSent := [] }).1
    ∧ (graceKillTask
        (timeoutHandlerChild { exited := false, killed := false, signalsSent := [] }).1).exited
      = false
    ∧ KSignal.sigkill ∉
        (graceKillTask
          (timeoutHandlerChild { exited := false, killed := false, signalsSent := [] }).1).signalsSent
    ∧ graceDelayMs = 5000 := by
  decide

/- ### Claim C5 -/

/-- C5 (counterexample): with the attempt counter at the configured maximum
of 10, `scheduleReconnect` leaves the state unchanged and performs only an
error log — its action list contains no emitted event and no scheduled
retry, so nothing distinct is reported upward to the caller; the claim that
the client reports a distinct terminal `ReconnectLimitExceeded` failure to
its caller is false of the code. -/
theorem scheduleReconnect_limit_silent_cx :
    scheduleReconnect (M := Nat)
        { isConnected := false, shouldReconnect := true,
          reconnectAttempts := 10, messageQueue := [],
          heartbeatRunning := false }
      = ({ isConnected := false, shouldReconnect := true,
           reconnectAttempts := 10, messageQueue := [],
           heartbeatRunning := false },
         [WsAction.logError "Max reconnection attempts reached, giving up"]) := by
  rfl

/-- C5 (amended): once the attempt counter has reached the configured
maximum, `scheduleReconnect` stops reconnecting but handles the condition
silently with respect to its caller: it leaves the state unchanged and
performs exactly one action, an error log entry — in particular it emits no
event and schedules no retry. -/
theorem scheduleReconnect_limit_reached (M : Type) (s : WsState M)
    (h : s.reconnectAttempts ≥ maxReconnectAttempts) :
    scheduleReconnect s
      = (s, [WsAction.logError "Max reconnection attempts reached, giving up"]) := by
  simp [scheduleReconnect, h]

/-- C5 (witness): the amended theorem applied at a concrete exhausted
state. -/
theorem scheduleReconnect_limit_reached_witness :
    scheduleReconnect (M := Nat)
        { isConnected := false, shouldReconnect := true,
          reconnectAttempts := 12, messageQueue := [3],
          heartbeatRunning := false }
      = ({ isConnected := false, shouldReconnect := true,
           reconnectAttempts := 12, messageQueue := [3],
           heartbeatRunning := false },
         [WsAction.logError "Max reconnection attempts reached, giving up"]) :=
  scheduleReconnect_limit_reached Nat _ (by decide)

/- ### Lemmas about the reconnect schedule and the open handler -/

/-- Iterating `scheduleReconnect` below the attempt cap only increments the
attempt counter. -/
theorem iterSchedule_eq {M : Type} :
    ∀ (j : Nat) (s : WsState M),
      s.reconnectAttempts + j ≤ maxReconnectAttempts →
      iterSchedule s j = { s with reconnectAttempts := s.reconnectAttempts + j } := by
  intro j
  induction j with
  | zero => intro s _; cases s; simp [iterSchedule]
  | succ m ih =>
    intro s hle
    have hlt : ¬ s.reconnectAttempts ≥ maxReconnectAttempts := by omega
    rw [iterSchedule, scheduleReconnect, if_neg hlt]
    rw [ih _ (by simp; omega)]
    simp
    omega

/-- While connected, sending a list of messages writes each one to the
transport, in order, without changing the state. -/
theorem sendMany_connected {M : Type} (s : WsState M)
    (h : s.isConnected = true) :
    ∀ ms, sendMany s ms
      = (s, ms.map (fun m => WsAction.write (WsWrite.payload m))) := by
  intro ms
  induction ms with
  | nil => simp [sendMany]
  | cons m ms ih => simp [sendMany, send, h, ih]

/-- The open handler in closed form: it resets the attempt counter, writes
the hello message, then the whole queue in FIFO order, then starts the
heartbeat timer and emits the connected event, leaving the queue empty. -/
theorem handleOpen_eq {M : Type} (s : WsState M) :
    handleOpen s
      = ({ isConnected := true, shouldReconnect := s.shouldReconnect,
           reconnectAttempts := 0, messageQueue := [],
           heartbeatRunning := true },
         WsAction.write WsWrite.hello
           :: s.messageQueue.map (fun m => WsAction.write (WsWrite.payload m))
           ++ [WsAction.startHeartbeatTimer, WsAction.emit WsEmit.connected]) := by
  have h := sendMany_connected (M := M)
    { isConnected := true, shouldReconnect := s.shouldReconnect,
      reconnectAttempts := 0, messageQueue := s.messageQueue,
      heartbeatRunning := s.heartbeatRunning } rfl s.messageQueue
  simp [handleOpen, flushMessageQueue, h]

/- ### Claim C4 -/

/-- C4: starting from a freshly reset attempt counter, the k-th consecutive
reconnect failure (1 ≤ k ≤ 10) schedules a retry after
`reconnectDelay * 1.5 ^ (k - 1)` ms (reconnectDelay = 5000 ms) and no other
action; once the counter has reached the maximum of 10, no retry is
scheduled (the handler only logs and changes nothing); and every successful
open transition resets the attempt counter to zero. -/
theorem ws_reconnect_backoff (M : Type) :
    (∀ (s : WsState M), s.reconnectAttempts = 0 →
       ∀ k, 1 ≤ k → k ≤ maxReconnectAttempts →
       scheduleReconnect (iterSchedule s (k - 1))
         = ({ s with reconnectAttempts := k },
            [WsAction.scheduleRetry (reconnectDelay * (3 / 2 : ℚ) ^ (k - 1))]))
    ∧ (∀ s : WsState M, s.reconnectAttempts ≥ maxReconnectAttempts →
       scheduleReconnect s
         = (s, [WsAction.logError "Max reconnection attempts reached, giving up"]))
    ∧ (∀ s : WsState M, (handleOpen s).1.reconnectAttempts = 0) := by
  refine ⟨?_, ?_, ?_⟩
  · intro s h0 k hk1 hk10
    rw [iterSchedule_eq (k - 1) s (by omega)]
    rw [scheduleReconnect]
    rw [if_neg (by simp; omega)]
    simp [h0]
    omega
  · intro s h
    simp [scheduleReconnect, h]
  · intro s
    rw [handleOpen_eq]

/-- C4 (witness): the third consecutive failure after a fresh counter
schedules a retry after 11250 ms = 5000 × 1.5², and an open resets the
counter. -/
theorem ws_reconnect_backoff_witness :
    scheduleReconnect (M := Nat)
        (iterSchedule
          { isConnected := false, shouldReconnect := true,
            reconnectAttempts := 0, messageQueue := [],
            heartbeatRunning := false } 2)
      = ({ isConnected := false, shouldReconnect := true,
           reconnectAttempts := 3, messageQueue := [],
           heartbeatRunning := false },
         [WsAction.scheduleRetry (11250 : ℚ)]) := by
  have h := (ws_reconnect_backoff Nat).1
    { isConnected := false, shouldReconnect := true, reconnectAttempts := 0,
      messageQueue := [], heartbeatRunning := false } rfl 3 (by decide) (by decide)
  have hq : reconnectDelay * (3 / 2 : ℚ) ^ (3 - 1 : Nat) = (11250 : ℚ) := by
    norm_num [reconnectDelay]
  rw [hq] at h
  exact h

/- ### Lemmas about the outbound queue -/

/-- Payload extraction distributes over action concatenation. -/
theorem payloadsOf_append {M : Type} (a b : List (WsAction M)) :
    payloadsOf (a ++ b) = payloadsOf a ++ payloadsOf b := by
  simp [payloadsOf]

/-- The flush portion of the open handler's actions carries exactly the
queued messages, in order. -/
theorem payloadsOf_map_payload {M : Type} (q : List M) :
    payloadsOf (q.map fun m => WsAction.write (WsWrite.payload m)) = q := by
  induction q with
  | nil => simp [payloadsOf]
  | cons m q ih => simpa [payloadsOf, List.filterMap_cons] using ih

/-- The close handler never writes to the transport and never touches the
message queue, and afterwards the client is disconnected. -/
theorem handleClose_spec {M : Type} (s : WsState M) (c : Int) :
    (handleClose s c).1.messageQueue = s.messageQueue
    ∧ (handleClose s c).1.isConnected = false
    ∧ payloadsOf (handleClose s c).2 = [] := by
  simp only [handleClose, scheduleReconnect]
  split
  · split <;> simp [payloadsOf]
  · simp [payloadsOf]

/-- The actions of one open handler carry exactly the queued messages as
payload writes. -/
theorem payloadsOf_open_acts {M : Type} (q : List M) :
    payloadsOf (WsAction.write WsWrite.hello
        :: (q.map fun m => WsAction.write (WsWrite.payload m))
        ++ [WsAction.startHeartbeatTimer, WsAction.emit WsEmit.connected]) = q := by
  induction q with
  | nil => rfl
  | cons m q ih => simpa [payloadsOf, List.filterMap_cons] using ih

/-- FIFO bookkeeping invariant of the client run: the payloads written so
far followed by the still-queued messages equal the starting backlog
followed by all messages handed to `send`, in order. -/
theorem wsRun_fifo_aux {M : Type} :
    ∀ (es : List (WsEvent M)) (s : WsState M) (acts : List (WsAction M)),
      (s.isConnected = true → s.messageQueue = []) →
      payloadsOf (es.foldl wsStep (s, acts)).2
          ++ (es.foldl wsStep (s, acts)).1.messageQueue
        = payloadsOf acts ++ s.messageQueue ++ sendsOf es := by
  intro es
  induction es with
  | nil => intro s acts hinv; simp [sendsOf]
  | cons e es ih =>
    intro s acts hinv
    cases e with
    | sendEv m =>
      by_cases hc : s.isConnected
      · have hq : s.messageQueue = [] := hinv hc
        have hstep : wsStep (s, acts) (WsEvent.sendEv m)
            = (s, acts ++ [WsAction.write (WsWrite.payload m)]) := by
          simp [wsStep, send, hc]
        rw [List.foldl_cons, hstep, ih s _ hinv]
        simp [payloadsOf_append, payloadsOf, sendsOf, hq]
      · have hc2 : s.isConnected = false := by simpa using hc
        have hstep : wsStep (s, acts) (WsEvent.sendEv m)
            = ({ s with messageQueue := s.messageQueue ++ [m] }, acts) := by
          simp [wsStep, send, hc2]
        rw [List.foldl_cons, hstep,
          ih _ _ (by intro h; simp [hc2] at h)]
        simp [sendsOf]
    | openEv =>
      have hstep : wsStep (s, acts) WsEvent.openEv
          = ((handleOpen s).1, acts ++ (handleOpen s).2) := rfl
      rw [List.foldl_cons, hstep, handleOpen_eq s,
        ih _ _ (by intro _; rfl)]
      rw [payloadsOf_append, payloadsOf_open_acts]
      simp [sendsOf]
    | closeEvt c =>
      have hstep : wsStep (s, acts) (WsEvent.closeEvt c)
          = ((handleClose s c).1, acts ++ (handleClose s c).2) := rfl
      have hcl := handleClose_spec s c
      rw [List.foldl_cons, hstep,
        ih _ _ (by intro h; rw [hcl.2.1] at h; cases h)]
      rw [payloadsOf_append, hcl.1, hcl.2.2]
      simp [sendsOf]

/- ### Claim C6 -/

/-- C6: a message handed to `send` while not connected is appended to the
outbound queue and nothing is transmitted or dropped; the open handler
writes the hello identification message first, then flushes the queue to
the transport in original FIFO order, then starts the heartbeat timer; and
over any event sequence (any number of reconnects included) the payloads
written to the transport followed by the still-queued messages are exactly
the messages handed to `send`, in order — FIFO and exactly-once. -/
theorem ws_send_queue_fifo (M : Type) :
    (∀ (s : WsState M) (m : M), s.isConnected = false →
       send s m = ({ s with messageQueue := s.messageQueue ++ [m] }, []))
    ∧ (∀ s : WsState M,
       handleOpen s
         = ({ isConnected := true, shouldReconnect := s.shouldReconnect,
              reconnectAttempts := 0, messageQueue := [],
              heartbeatRunning := true },
            WsAction.write WsWrite.hello
              :: s.messageQueue.map (fun m => WsAction.write (WsWrite.payload m))
              ++ [WsAction.startHeartbeatTimer, WsAction.emit WsEmit.connected]))
    ∧ (∀ (s0 : WsState M) (es : List (WsEvent M)),
       (s0.isConnected = true → s0.messageQueue = []) →
       payloadsOf (wsRun s0 es).2 ++ (wsRun s0 es).1.messageQueue
         = s0.messageQueue ++ sendsOf es) := by
  refine ⟨?_, handleOpen_eq, ?_⟩
  · intro s m h
    simp [send, h]
  · intro s0 es hinv
    have h := wsRun_fifo_aux es s0 [] hinv
    simpa [payloadsOf, wsRun] using h

/-- C6 (witness): a concrete run with two messages queued while
disconnected, a reconnect cycle, and one message sent while connected
delivers exactly the three messages in send order. -/
theorem ws_send_queue_fifo_witness :
    payloadsOf (wsRun
        { isConnected := false, shouldReconnect := true,
          reconnectAttempts := 0, messageQueue := [],
          heartbeatRunning := false }
        [WsEvent.sendEv 1, WsEvent.sendEv 2, WsEvent.openEv,
         WsEvent.closeEvt 1006, WsEvent.sendEv 3, WsEvent.openEv]).2
      ++ (wsRun
        { isConnected := false, shouldReconnect := true,
          reconnectAttempts := 0, messageQueue := [],
          heartbeatRunning := false }
        [WsEvent.sendEv 1, WsEvent.sendEv 2, WsEvent.openEv,
         WsEvent.closeEvt 1006, WsEvent.sendEv 3, WsEvent.openEv]).1.messageQueue
      = [1, 2, 3] := by
  have h := (ws_send_queue_fifo Nat).2.2
    { isConnected := false, shouldReconnect := true, reconnectAttempts := 0,
      messageQueue := [], heartbeatRunning := false }
    [WsEvent.sendEv 1, WsEvent.sendEv 2, WsEvent.openEv,
     WsEvent.closeEvt 1006, WsEvent.sendEv 3, WsEvent.openEv]
    (by intro h2; cases h2)
  simpa [sendsOf, List.filterMap_cons] using h

/- ### Lemmas about the settlement machine -/

/-- Every event handler preserves the settlement invariant. -/
theorem onceStep_inv (s : OnceState) (e : OnceEvent) (h : OnceInv s) :
    OnceInv (onceStep s e) := by
  unfold OnceInv at h ⊢
  obtain ⟨h1, h2, h3, h4⟩ := h
  cases e with
  | closeEv code =>
    by_cases hr : s.isResolved = true
    · simp [onceStep, hr, h2 hr, h3 hr]
    · have hf : s.isResolved = false := by simpa using hr
      simp [onceStep, hf, h1 hf]
  | errorEv =>
    by_cases hr : s.isResolved = true
    · simp [onceStep, hr, h2 hr, h3 hr, h4]
    · have hf : s.isResolved = false := by simpa using hr
      simp [onceStep, hf, h1 hf, h4]
  | timeoutFire =>
    by_cases hc : s.timeoutCleared = true
    · have hr := h4 hc
      simp [onceStep, hc, hr, h2 hr, h3 hr]
    · have hc2 : s.timeoutCleared = false := by simpa using hc
      by_cases hr : s.isResolved = true
      · simp [onceStep, hc2, hr, h2 hr, h3 hr, h4]
      · have hf : s.isResolved = false := by simpa using hr
        simp [onceStep, hc2, hf, h1 hf, h4]
  | killCommandEv =>
    by_cases hp : s.recordPresent = true
    · have hstep : onceStep s OnceEvent.killCommandEv
          = { s with recordPresent := false } := by
        simp [onceStep, hp]
      rw [hstep]
      exact ⟨h1, h2, fun _ => rfl, h4⟩
    · have hstep : onceStep s OnceEvent.killCommandEv = s := by
        simp [onceStep, hp]
      rw [hstep]
      exact ⟨h1, h2, h3, h4⟩

/-- The settlement invariant holds along any event trace. -/
theorem onceRun_inv :
    ∀ (es : List OnceEvent) (s : OnceState), OnceInv s →
      OnceInv (es.foldl onceStep s) := by
  intro es
  induction es with
  | nil => intro s h; simpa using h
  | cons e es ih => intro s h; exact ih _ (onceStep_inv s e h)

/-- Once resolved, an invocation stays resolved. -/
theorem onceFoldl_resolved_mono :
    ∀ (es : List OnceEvent) (s : OnceState), s.isResolved = true →
      (es.foldl onceStep s).isResolved = true := by
  intro es
  induction es with
  | nil => intro s h; simpa using h
  | cons e es ih =>
    intro s h
    refine ih _ ?_
    cases e with
    | closeEv c => simp [onceStep, h]
    | errorEv => simp [onceStep, h]
    | timeoutFire =>
      by_cases hc : s.timeoutCleared = true
      · simp [onceStep, hc, h]
      · have hc2 : s.timeoutCleared = false := by simpa using hc
        simp [onceStep, hc2, h]
    | killCommandEv =>
      by_cases hp : s.recordPresent = true <;> simp [onceStep, hp, h]

/-- A trace containing a close, error, or uncancelled-timeout event leaves
the invocation resolved. -/
theorem onceFoldl_settling_resolves :
    ∀ (es : List OnceEvent) (s : OnceState), OnceInv s →
      (∃ e ∈ es, settlingEvent e = true) →
      (es.foldl onceStep s).isResolved = true := by
  intro es
  induction es with
  | nil =>
    rintro s _ ⟨e, he, _⟩
    cases he
  | cons e es ih =>
    rintro s hinv ⟨e2, he2, hset⟩
    rcases List.mem_cons.mp he2 with heq | hmem
    · subst heq
      have hres : (onceStep s e2).isResolved = true := by
        cases e2 with
        | closeEv c =>
          by_cases hr : s.isResolved = true <;> simp [onceStep, hr]
        | errorEv =>
          by_cases hr : s.isResolved = true <;> simp [onceStep, hr]
        | timeoutFire =>
          by_cases hc : s.timeoutCleared = true
          · have hr := hinv.2.2.2 hc
            simp [onceStep, hc, hr]
          · have hc2 : s.timeoutCleared = false := by simpa using hc
            by_cases hr : s.isResolved = true <;> simp [onceStep, hc2, hr]
        | killCommandEv => cases hset
      exact onceFoldl_resolved_mono es _ hres
    · exact ih _ (onceStep_inv s e hinv) ⟨e2, hmem, hset⟩

/- ### Claim C2 -/

/-- C2: along every event-loop trace of one helper invocation, the promise
is settled at most once; whenever it is settled the active-process record
has been removed; and any trace containing a process-close, process-error,
or timeout-fire event settles it exactly once — never zero times, never
twice — with explicit cancellation (killCommand) never settling it a second
time. -/
theorem invocation_settles_exactly_once (es : List OnceEvent) :
    (runOnce es).settles.length ≤ 1
    ∧ ((runOnce es).isResolved = true → (runOnce es).recordPresent = false)
    ∧ ((∃ e ∈ es, settlingEvent e = true) → (runOnce es).settles.length = 1) := by
  have hinv0 : OnceInv initOnceState := by
    refine ⟨fun _ => rfl, ?_, ?_, ?_⟩ <;> intro h <;> cases h
  have hinv := onceRun_inv es initOnceState hinv0
  obtain ⟨h1, h2, h3, h4⟩ := hinv
  refine ⟨?_, h3, ?_⟩
  · by_cases hr : (runOnce es).isResolved = true
    · rw [runOnce] at hr ⊢
      rw [h2 hr]
    · have hf : (runOnce es).isResolved = false := by simpa using hr
      rw [runOnce] at hf ⊢
      rw [h1 hf]
      simp
  · intro hev
    have hres := onceFoldl_settling_resolves es initOnceState hinv0 hev
    rw [runOnce]
    exact h2 hres

/-- C2 (witness): a trace with an explicit cancellation followed by the
process close and a late timer fire settles exactly once. -/
theorem invocation_settles_exactly_once_witness :
    (runOnce [OnceEvent.killCommandEv, OnceEvent.closeEv 0,
        OnceEvent.timeoutFire]).settles.length = 1 :=
  (invocation_settles_exactly_once
    [OnceEvent.killCommandEv, OnceEvent.closeEv 0,
     OnceEvent.timeoutFire]).2.2 (by decide)

/- ### Claim C3 -/

/-- C3: whenever the install step overwrites the running executable (the
copy of the update file over the current path appears among the performed
actions), the backup copy of the running executable was made strictly
before it — the action trace begins with the backup copy, then the service
stop, then the replacement — the backup copy succeeded, and the backup file
is present in the resulting file system; and if creating the backup fails,
the sequence aborts with an error before any replacement occurs. -/
theorem installUpdate_backup_before_replace
    (fs : FS) (orc : InstallOracles) (cp bp up : String) (w : Bool)
    (hbu : bp ≠ up) (huc : up ≠ cp) :
    (InstallAction.copyFileAction up cp ∈ (installUpdate fs orc cp bp up w).1 →
       (installUpdate fs orc cp bp up w).1.take 3
           = [InstallAction.copyFileAction cp bp,
              InstallAction.stopServiceAction,
              InstallAction.copyFileAction up cp]
       ∧ orc.backupCopyOk = true ∧ fsExistsAt fs cp = true
       ∧ bp ∈ (installUpdate fs orc cp bp up w).2.1.files)
    ∧ ((orc.backupCopyOk = false ∨ fsExistsAt fs cp = false) →
       InstallAction.copyFileAction up cp ∉ (installUpdate fs orc cp bp up w).1
       ∧ ∃ msg, (installUpdate fs orc cp bp up w).2.2
           = InstallResult.installError msg) := by
  by_cases hup : fsExistsAt fs up = true
  · by_cases hbo : orc.backupCopyOk = true
    · by_cases hcx : fsExistsAt fs cp = true
      · have hb : copyFileSyncFs orc.backupCopyOk fs cp bp
            = some { files := bp :: fs.files } := by
          simp [copyFileSyncFs, hbo, hcx]
        have hux : fsExistsAt { files := bp :: fs.files } up = true := by
          simp only [fsExistsAt] at hup ⊢
          have hm : up ∈ fs.files := by simpa using hup
          simp [hm]
        by_cases hro : orc.replaceCopyOk = true
        · have hr : copyFileSyncFs orc.replaceCopyOk
              { files := bp :: fs.files } up cp
              = some { files := cp :: bp :: fs.files } := by
            simp [copyFileSyncFs, hro, hux]
          constructor
          · intro _
            simp only [installUpdate, hup, hb, hr]
            split_ifs <;>
              simp_all [List.mem_erase_of_ne hbu]
          · rintro (hd | hd)
            · rw [hd] at hbo; cases hbo
            · rw [hd] at hcx; cases hcx
        · have hro2 : orc.replaceCopyOk = false := by simpa using hro
          have hr : copyFileSyncFs orc.replaceCopyOk
              { files := bp :: fs.files } up cp = none := by
            simp [copyFileSyncFs, hro2]
          constructor
          · intro hmem
            simp only [installUpdate, hup, hb, hr] at hmem
            simp [huc] at hmem
          · rintro (hd | hd)
            · rw [hd] at hbo; cases hbo
            · rw [hd] at hcx; cases hcx
      · have hcx2 : fsExistsAt fs cp = false := by simpa using hcx
        have hb : copyFileSyncFs orc.backupCopyOk fs cp bp = none := by
          simp [copyFileSyncFs, hcx2]
        constructor
        · intro hmem
          simp only [installUpdate, hup, hb] at hmem
          simp at hmem
        · intro _
          simp only [installUpdate, hup, hb]
          exact ⟨by simp, ⟨_, rfl⟩⟩
    · have hbo2 : orc.backupCopyOk = false := by simpa using hbo
      have hb : copyFileSyncFs orc.backupCopyOk fs cp bp = none := by
        simp [copyFileSyncFs, hbo2]
      constructor
      · intro hmem
        simp only [installUpdate, hup, hb] at hmem
        simp at hmem
      · intro _
        simp only [installUpdate, hup, hb]
        exact ⟨by simp, ⟨_, rfl⟩⟩
  · have hup2 : fsExistsAt fs up = false := by simpa using hup
    have heq : installUpdate fs orc cp bp up w
        = ([], fs,
           InstallResult.installError "Update file not found. Run download first.") := by
      simp [installUpdate, hup2]
    rw [heq]
    constructor
    · intro hmem
      simp at hmem
    · intro _
      exact ⟨by simp, ⟨_, rfl⟩⟩

/-- C3 (witness): the theorem applied to a concrete successful
installation. -/
theorem installUpdate_backup_before_replace_witness :
    (installUpdate { files := ["/tmp/ed/agent-v2-2.1.0-linux-x64", "/opt/ed/agent"] }
        { backupCopyOk := true, replaceCopyOk := true, chmodOk := true,
          startServiceOk := true, unlinkOk := true }
        "/opt/ed/agent" "/opt/ed/backup/agent-backup-7"
        "/tmp/ed/agent-v2-2.1.0-linux-x64" false).1.take 3
      = [InstallAction.copyFileAction "/opt/ed/agent" "/opt/ed/backup/agent-backup-7",
         InstallAction.stopServiceAction,
         InstallAction.copyFileAction "/tmp/ed/agent-v2-2.1.0-linux-x64" "/opt/ed/agent"]
    ∧ "/opt/ed/backup/agent-backup-7" ∈
        (installUpdate { files := ["/tmp/ed/agent-v2-2.1.0-linux-x64", "/opt/ed/agent"] }
          { backupCopyOk := true, replaceCopyOk := true, chmodOk := true,
            startServiceOk := true, unlinkOk := true }
          "/opt/ed/agent" "/opt/ed/backup/agent-backup-7"
          "/tmp/ed/agent-v2-2.1.0-linux-x64" false).2.1.files := by
  have h := (installUpdate_backup_before_replace
    { files := ["/tmp/ed/agent-v2-2.1.0-linux-x64", "/opt/ed/agent"] }
    { backupCopyOk := true, replaceCopyOk := true, chmodOk := true,
      startServiceOk := true, unlinkOk := true }
    "/opt/ed/agent" "/opt/ed/backup/agent-backup-7"
    "/tmp/ed/agent-v2-2.1.0-linux-x64" false (by decide) (by decide)).1
    (by decide)
  exact ⟨h.1, h.2.2.2⟩

/- ### Claim C10 -/

/-- C10: the download step saves the artifact under the basename of its
download URL, while the install step probes only the fixed temp path built
from `agent-v2-<version>-<platform>-<arch>`; whenever the two names differ
(and the running executable is not itself at the probed path),
`installUpdate` fails with the update-file-not-found error, performing no
action at all — no backup is created and the running executable is
untouched. -/
theorem installUpdate_download_name_mismatch
    (tempDir url version platform arch cp bp : String) (w : Bool)
    (orc : InstallOracles)
    (hname : urlBasename url ≠ installFilename version platform arch w)
    (hcp : cp ≠ installLookupPath tempDir version platform arch w) :
    installUpdate { files := [downloadSavePath tempDir url, cp] } orc cp bp
        (installLookupPath tempDir version platform arch w) w
      = ([], { files := [downloadSavePath tempDir url, cp] },
         InstallResult.installError "Update file not found. Run download first.") := by
  have hsave : downloadSavePath tempDir url
      ≠ installLookupPath tempDir version platform arch w := by
    intro hc
    apply hname
    have hd : (downloadSavePath tempDir url).data
        = (installLookupPath tempDir version platform arch w).data :=
      congrArg String.data hc
    simp only [downloadSavePath, installLookupPath, pathJoin,
      String.data_append, List.append_assoc] at hd
    exact String.ext (List.append_cancel_left (List.append_cancel_left hd))
  have hcp2 : installLookupPath tempDir version platform arch w ≠ cp :=
    fun h => hcp h.symm
  have hsave2 : installLookupPath tempDir version platform arch w
      ≠ downloadSavePath tempDir url := fun h => hsave h.symm
  have hnotin : fsExistsAt { files := [downloadSavePath tempDir url, cp] }
      (installLookupPath tempDir version platform arch w) = false := by
    simp only [fsExistsAt]
    simp [hsave2, hcp2]
  simp [installUpdate, hnotin]

/-- C10 (witness): a GitHub release asset named `agent-v2-windows-x64.exe`
does not match the probed name `agent-v2-2.1.0-win32-x64.exe`, so the
install step fails before doing anything. -/
theorem installUpdate_download_name_mismatch_witness :
    installUpdate
        { files := ["C:/ProgramData/ET/temp" ++ "/" ++ "agent-v2-windows-x64.exe",
                    "C:/Program Files/ET/agent.exe"] }
        { backupCopyOk := true, replaceCopyOk := true, chmodOk := true,
          startServiceOk := true, unlinkOk := true }
        "C:/Program Files/ET/agent.exe" "C:/ProgramData/ET/backup/agent-backup-9.exe"
        ("C:/ProgramData/ET/temp" ++ "/" ++ "agent-v2-2.1.0-win32-x64.exe") true
      = ([], { files := ["C:/ProgramData/ET/temp" ++ "/" ++ "agent-v2-windows-x64.exe",
                         "C:/Program Files/ET/agent.exe"] },
         InstallResult.installError "Update file not found. Run download first.") := by
  have h := installUpdate_download_name_mismatch
    "C:/ProgramData/ET/temp"
    "https://github.com/Independent-Business-Group/rmm-psa-agent-v2/releases/download/v2.1.0/agent-v2-windows-x64.exe"
    "2.1.0" "win32" "x64" "C:/Program Files/ET/agent.exe"
    "C:/ProgramData/ET/backup/agent-backup-9.exe" true
    { backupCopyOk := true, replaceCopyOk := true, chmodOk := true,
      startServiceOk := true, unlinkOk := true }
    (by decide) (by decide)
  exact h

/- ### Lemmas about response parsing -/

/-- The line scan of the source equals the specification-side selector: it
returns the parse of the first line whose trimmed form starts with a brace
or bracket and parses as JSON. -/
theorem findJsonLine_eq_spec {J : Type} (parse : String → Option J) :
    ∀ ls, findJsonLine parse ls = firstJsonLineSpec parse ls := by
  intro ls
  induction ls with
  | nil => rfl
  | cons l ls ih =>
    by_cases hs : (jsStartsWithChar '\x7b' (jsTrim l)
        || jsStartsWithChar '[' (jsTrim l)) = true
    · cases hp : parse (jsTrim l) with
      | some j =>
        simp [findJsonLine, firstJsonLineSpec, hs, hp, List.find?_cons]
      | none =>
        rw [findJsonLine]
        simp only [hs, if_true, hp]
        rw [ih, firstJsonLineSpec, firstJsonLineSpec]
        have hpred : ((jsStartsWithChar '\x7b' (jsTrim l)
            || jsStartsWithChar '[' (jsTrim l)) && (parse (jsTrim l)).isSome)
            = false := by
          simp [hp]
        rw [List.find?_cons_of_neg _ (by simp [hpred])]
    · have hs2 : (jsStartsWithChar '\x7b' (jsTrim l)
          || jsStartsWithChar '[' (jsTrim l)) = false := by
        simpa using hs
      rw [findJsonLine]
      simp only [hs2, Bool.false_eq_true, if_false]
      rw [ih, firstJsonLineSpec, firstJsonLineSpec]
      rw [List.find?_cons_of_neg _ (by simp [hs2])]

/- ### Claim C7 -/

/-- C7: for helper stdout under exit code 0, the close handler resolves
with: the parse of the whole trimmed output when that parses; otherwise the
parse of the first line whose trimmed form starts with a brace or bracket
and parses as JSON; and when no line parses, a synthesized success response
whose message is the trimmed raw stdout. -/
theorem closeHandler_parse_dispatch (J : Type) (parse : String → Option J)
    (out stderrStr : String) :
    (∀ j, parse (jsTrim out) = some j →
       closeHandlerResult parse 0 out stderrStr
         = CloseOutcome.ok (HelperResponse.json j))
    ∧ (parse (jsTrim out) = none →
       ∀ j, firstJsonLineSpec parse (jsSplitOn '\n' out) = some j →
       closeHandlerResult parse 0 out stderrStr
         = CloseOutcome.ok (HelperResponse.json j))
    ∧ (parse (jsTrim out) = none →
       firstJsonLineSpec parse (jsSplitOn '\n' out) = none →
       closeHandlerResult parse 0 out stderrStr
         = CloseOutcome.ok (HelperResponse.synthesized (jsTrim out))) := by
  refine ⟨?_, ?_, ?_⟩
  · intro j hj
    simp [closeHandlerResult, parseHelperResponse, hj]
  · intro hn j hline
    rw [← findJsonLine_eq_spec] at hline
    simp [closeHandlerResult, parseHelperResponse, hn, hline]
  · intro hn hline
    rw [← findJsonLine_eq_spec] at hline
    simp [closeHandlerResult, parseHelperResponse, hn, hline]

/-- C7 (witness): a concrete helper output whose full trim does not parse
but whose second line is a JSON object resolves with that object's parse. -/
theorem closeHandler_parse_dispatch_witness :
    closeHandlerResult (fun s => if s = "\x7b\x7d" then some 42 else none) 0
        "noise\n \x7b\x7d \nrest" ""
      = CloseOutcome.ok (HelperResponse.json 42) :=
  (closeHandler_parse_dispatch Nat
    (fun s => if s = "\x7b\x7d" then some 42 else none)
    "noise\n \x7b\x7d \nrest" "").2.1 (by decide) 42 (by decide)


/- ### Lemmas about the version comparator -/

/-- Coercion by `|| 0` never yields NaN. -/
theorem jsOr0_ne_nan (v : JsNum) : jsOr0 v ≠ JsNum.nan := by
  cases v <;> simp [jsOr0]

/-- The JavaScript number order is irreflexive. -/
theorem jsLt_irrefl (x : JsNum) : jsLt x x = false := by
  cases x with
  | nan => rfl
  | posInf => rfl
  | negInf => rfl
  | finite q => simp [jsLt]

/-- The JavaScript number order is asymmetric. -/
theorem jsLt_asymm (x y : JsNum) (h : jsLt x y = true) : jsLt y x = false := by
  cases x <;> cases y <;> simp_all [jsLt]
  linarith

/-- Non-NaN values that are not strictly ordered either way are equal. -/
theorem jsEq_of_not_lt (x y : JsNum) (hx : x ≠ JsNum.nan) (hy : y ≠ JsNum.nan)
    (h1 : jsLt x y = false) (h2 : jsLt y x = false) : x = y := by
  cases x <;> cases y <;> simp_all [jsLt]
  linarith

/-- Position lookup in the empty part list reads 0. -/
theorem partValAt_nil (i : Nat) : partValAt [] i = JsNum.finite 0 := rfl

/-- Position lookup at the head is the coerced head. -/
theorem partValAt_cons_zero (x : JsNum) (xs : List JsNum) :
    partValAt (x :: xs) 0 = jsOr0 x := rfl

/-- Position lookup past the head. -/
theorem partValAt_cons_succ (x : JsNum) (xs : List JsNum) (i : Nat) :
    partValAt (x :: xs) (i + 1) = partValAt xs i := rfl

/-- Positionwise equality is symmetric. -/
theorem specEq_comm (xs ys : List JsNum) : specEq xs ys ↔ specEq ys xs := by
  constructor <;> intro h i <;> exact (h i).symm

/-- Positionwise equality decomposed at a head pair. -/
theorem specEq_cons_cons (x y : JsNum) (xs ys : List JsNum) :
    specEq (x :: xs) (y :: ys) ↔ (jsOr0 x = jsOr0 y ∧ specEq xs ys) := by
  constructor
  · intro h
    exact ⟨h 0, fun i => h (i + 1)⟩
  · rintro ⟨hxy, h⟩ i
    cases i with
    | zero => exact hxy
    | succ j => exact h j

/-- Positionwise equality of the empty list with a cons. -/
theorem specEq_nil_cons (y : JsNum) (ys : List JsNum) :
    specEq [] (y :: ys) ↔ (jsOr0 y = JsNum.finite 0 ∧ specEq [] ys) := by
  constructor
  · intro h
    refine ⟨(h 0).symm, fun i => ?_⟩
    simpa [partValAt_nil] using h (i + 1)
  · rintro ⟨hy, h⟩ i
    cases i with
    | zero => simpa [partValAt_nil] using hy.symm
    | succ j => simpa [partValAt_nil] using h j

/-- The positionwise strict order decomposed at a head pair. -/
theorem specLt_cons_cons (x y : JsNum) (xs ys : List JsNum) :
    specLt (x :: xs) (y :: ys)
      ↔ (jsLt (jsOr0 x) (jsOr0 y) = true
         ∨ (jsOr0 x = jsOr0 y ∧ specLt xs ys)) := by
  constructor
  · rintro ⟨i, hlt, hpre⟩
    cases i with
    | zero => exact Or.inl hlt
    | succ j =>
      have hxy : jsOr0 x = jsOr0 y := hpre 0 (Nat.succ_pos j)
      exact Or.inr ⟨hxy, j, hlt, fun k hk => hpre (k + 1) (Nat.succ_lt_succ hk)⟩
  · rintro (h | ⟨hxy, j, hlt, hpre⟩)
    · exact ⟨0, h, fun k hk => absurd hk (Nat.not_lt_zero k)⟩
    · refine ⟨j + 1, hlt, fun k hk => ?_⟩
      cases k with
      | zero => exact hxy
      | succ k2 => exact hpre k2 (Nat.lt_of_succ_lt_succ hk)

/-- The positionwise strict order from the all-zero padding. -/
theorem specLt_nil_cons (y : JsNum) (ys : List JsNum) :
    specLt [] (y :: ys)
      ↔ (jsLt (JsNum.finite 0) (jsOr0 y) = true
         ∨ (jsOr0 y = JsNum.finite 0 ∧ specLt [] ys)) := by
  constructor
  · rintro ⟨i, hlt, hpre⟩
    cases i with
    | zero =>
      left
      simpa [partValAt_nil] using hlt
    | succ j =>
      have hy := hpre 0 (Nat.succ_pos j)
      right
      refine ⟨by simpa [partValAt_nil] using hy.symm, j, ?_, fun k hk => ?_⟩
      · simpa [partValAt_nil] using hlt
      · simpa [partValAt_nil] using hpre (k + 1) (Nat.succ_lt_succ hk)
  · rintro (h | ⟨hy, j, hlt, hpre⟩)
    · exact ⟨0, by simpa [partValAt_nil] using h,
        fun k hk => absurd hk (Nat.not_lt_zero k)⟩
    · refine ⟨j + 1, by simpa [partValAt_nil] using hlt, fun k hk => ?_⟩
      cases k with
      | zero => simpa [partValAt_nil] using hy.symm
      | succ k2 => simpa [partValAt_nil] using hpre k2 (Nat.lt_of_succ_lt_succ hk)

/-- The positionwise strict order against the all-zero padding: it can hold
because a present part can be negative. -/
theorem specLt_cons_nil (x : JsNum) (xs : List JsNum) :
    specLt (x :: xs) []
      ↔ (jsLt (jsOr0 x) (JsNum.finite 0) = true
         ∨ (jsOr0 x = JsNum.finite 0 ∧ specLt xs [])) := by
  constructor
  · rintro ⟨i, hlt, hpre⟩
    cases i with
    | zero =>
      left
      simpa [partValAt_nil] using hlt
    | succ j =>
      have hx := hpre 0 (Nat.succ_pos j)
      right
      refine ⟨by simpa [partValAt_nil] using hx, j, ?_, fun k hk => ?_⟩
      · simpa [partValAt_nil] using hlt
      · simpa [partValAt_nil] using hpre (k + 1) (Nat.succ_lt_succ hk)
  · rintro (h | ⟨hx, j, hlt, hpre⟩)
    · exact ⟨0, by simpa [partValAt_nil] using h,
        fun k hk => absurd hk (Nat.not_lt_zero k)⟩
    · refine ⟨j + 1, by simpa [partValAt_nil] using hlt, fun k hk => ?_⟩
      cases k with
      | zero => simpa [partValAt_nil] using hx
      | succ k2 => simpa [partValAt_nil] using hpre k2 (Nat.lt_of_succ_lt_succ hk)

/-- The one-sided tail of the loop, characterized: against the all-zero
padding it returns 0 exactly on an all-zero-coercing remainder, `sign`
exactly when the present side is positionwise greater than the padding,
and `-sign` exactly when it is positionwise smaller (a negative part makes
the exhausted side win). -/
theorem cmpVsZero_spec (s : Int) (hs : s = 1 ∨ s = -1) :
    ∀ vs, (cmpVsZero s vs = 0 ↔ specEq [] vs)
      ∧ (cmpVsZero s vs = s ↔ specLt [] vs)
      ∧ (cmpVsZero s vs = -s ↔ specLt vs []) := by
  intro vs
  induction vs with
  | nil =>
    refine ⟨?_, ?_, ?_⟩
    · exact ⟨fun _ i => rfl, fun _ => rfl⟩
    · constructor
      · intro h
        exfalso
        rcases hs with rfl | rfl <;> exact absurd h (by decide)
      · rintro ⟨i, hlt, -⟩
        exact absurd hlt (by rw [partValAt_nil]; decide)
    · constructor
      · intro h
        exfalso
        rcases hs with rfl | rfl <;> exact absurd h (by decide)
      · rintro ⟨i, hlt, -⟩
        exact absurd hlt (by rw [partValAt_nil]; decide)
  | cons v vs ih =>
    by_cases hpos : jsLt (JsNum.finite 0) (jsOr0 v) = true
    · have hcmp : cmpVsZero s (v :: vs) = s := by
        simp [cmpVsZero, hpos]
      have hvne : jsOr0 v ≠ JsNum.finite 0 := by
        intro he
        rw [he, jsLt_irrefl] at hpos
        simp at hpos
      refine ⟨?_, ?_, ?_⟩
      · rw [hcmp, specEq_nil_cons]
        constructor
        · intro h
          exfalso
          rcases hs with rfl | rfl <;> exact absurd h (by decide)
        · rintro ⟨he, -⟩
          exact absurd he hvne
      · rw [hcmp, specLt_nil_cons]
        exact ⟨fun _ => Or.inl hpos, fun _ => rfl⟩
      · rw [hcmp, specLt_cons_nil]
        constructor
        · intro h
          exfalso
          rcases hs with rfl | rfl <;> exact absurd h (by decide)
        · rintro (h | ⟨he, -⟩)
          · rw [jsLt_asymm _ _ hpos] at h
            simp at h
          · exact absurd he hvne
    · have hposf : jsLt (JsNum.finite 0) (jsOr0 v) = false := by simpa using hpos
      by_cases hneg : jsLt (jsOr0 v) (JsNum.finite 0) = true
      · have hcmp : cmpVsZero s (v :: vs) = -s := by
          simp [cmpVsZero, hposf, hneg]
        have hvne : jsOr0 v ≠ JsNum.finite 0 := by
          intro he
          rw [he, jsLt_irrefl] at hneg
          simp at hneg
        refine ⟨?_, ?_, ?_⟩
        · rw [hcmp, specEq_nil_cons]
          constructor
          · intro h
            exfalso
            rcases hs with rfl | rfl <;> exact absurd h (by decide)
          · rintro ⟨he, -⟩
            exact absurd he hvne
        · rw [hcmp, specLt_nil_cons]
          constructor
          · intro h
            exfalso
            rcases hs with rfl | rfl <;> exact absurd h (by decide)
          · rintro (h | ⟨he, -⟩)
            · rw [hposf] at h
              simp at h
            · exact absurd he hvne
        · rw [hcmp, specLt_cons_nil]
          exact ⟨fun _ => Or.inl hneg, fun _ => rfl⟩
      · have hnegf : jsLt (jsOr0 v) (JsNum.finite 0) = false := by simpa using hneg
        have hveq : jsOr0 v = JsNum.finite 0 :=
          jsEq_of_not_lt _ _ (jsOr0_ne_nan v) (by simp) hnegf hposf
        have hcmp : cmpVsZero s (v :: vs) = cmpVsZero s vs := by
          simp [cmpVsZero, hposf, hnegf]
        obtain ⟨ih0, ihs, ihm⟩ := ih
        refine ⟨?_, ?_, ?_⟩
        · rw [hcmp, ih0, specEq_nil_cons]
          simp [hveq]
        · rw [hcmp, ihs, specLt_nil_cons]
          simp [hveq, jsLt]
        · rw [hcmp, ihm, specLt_cons_nil]
          simp [hveq, jsLt]

/-- The one-sided tail only ever returns 0, `sign` or `-sign`. -/
theorem cmpVsZero_values (s : Int) :
    ∀ vs, cmpVsZero s vs = 0 ∨ cmpVsZero s vs = s ∨ cmpVsZero s vs = -s := by
  intro vs
  induction vs with
  | nil => exact Or.inl rfl
  | cons v vs ih =>
    simp only [cmpVsZero]
    split_ifs
    · exact Or.inr (Or.inl rfl)
    · exact Or.inr (Or.inr rfl)
    · exact ih

/-- The comparison loop is characterized positionwise: it returns 0 exactly
when the coerced part values agree at every position (missing parts reading
as 0), 1 exactly when the left list is positionwise greater in the
JavaScript number order, and -1 exactly when it is positionwise smaller. -/
theorem cmpParts_spec : ∀ xs ys,
    (cmpParts xs ys = 0 ↔ specEq xs ys)
    ∧ (cmpParts xs ys = 1 ↔ specLt ys xs)
    ∧ (cmpParts xs ys = -1 ↔ specLt xs ys) := by
  intro xs
  induction xs with
  | nil =>
    intro ys
    obtain ⟨h0, hsgn, hneg⟩ := cmpVsZero_spec (-1) (Or.inr rfl) ys
    exact ⟨h0, by simpa using hneg, hsgn⟩
  | cons x xs ih =>
    intro ys
    cases ys with
    | nil =>
      obtain ⟨h0, hsgn, hneg⟩ := cmpVsZero_spec 1 (Or.inl rfl) (x :: xs)
      refine ⟨?_, hsgn, by simpa using hneg⟩
      rw [show cmpParts (x :: xs) [] = cmpVsZero 1 (x :: xs) from rfl, h0]
      exact specEq_comm [] (x :: xs)
    | cons y ys =>
      by_cases hba : jsLt (jsOr0 y) (jsOr0 x) = true
      · have hcmp : cmpParts (x :: xs) (y :: ys) = 1 := by
          simp [cmpParts, hba]
        have hne : jsOr0 x ≠ jsOr0 y := by
          intro he
          rw [he, jsLt_irrefl] at hba
          simp at hba
        refine ⟨?_, ?_, ?_⟩
        · rw [hcmp, specEq_cons_cons]
          constructor
          · intro h
            exact absurd h (by decide)
          · rintro ⟨he, -⟩
            exact absurd he hne
        · rw [hcmp, specLt_cons_cons]
          exact ⟨fun _ => Or.inl hba, fun _ => rfl⟩
        · rw [hcmp, specLt_cons_cons]
          constructor
          · intro h
            exact absurd h (by decide)
          · rintro (h | ⟨he, -⟩)
            · rw [jsLt_asymm _ _ hba] at h
              simp at h
            · exact absurd he hne
      · have hbaf : jsLt (jsOr0 y) (jsOr0 x) = false := by simpa using hba
        by_cases hab : jsLt (jsOr0 x) (jsOr0 y) = true
        · have hcmp : cmpParts (x :: xs) (y :: ys) = -1 := by
            simp [cmpParts, hbaf, hab]
          have hne : jsOr0 x ≠ jsOr0 y := by
            intro he
            rw [he, jsLt_irrefl] at hab
            simp at hab
          refine ⟨?_, ?_, ?_⟩
          · rw [hcmp, specEq_cons_cons]
            constructor
            · intro h
              exact absurd h (by decide)
            · rintro ⟨he, -⟩
              exact absurd he hne
          · rw [hcmp, specLt_cons_cons]
            constructor
            · intro h
              exact absurd h (by decide)
            · rintro (h | ⟨he, -⟩)
              · rw [hbaf] at h
                simp at h
              · exact absurd he.symm hne
          · rw [hcmp, specLt_cons_cons]
            exact ⟨fun _ => Or.inl hab, fun _ => rfl⟩
        · have habf : jsLt (jsOr0 x) (jsOr0 y) = false := by simpa using hab
          have hxy : jsOr0 x = jsOr0 y :=
            jsEq_of_not_lt _ _ (jsOr0_ne_nan x) (jsOr0_ne_nan y) habf hbaf
          have hcmp : cmpParts (x :: xs) (y :: ys) = cmpParts xs ys := by
            simp [cmpParts, hbaf, habf]
          obtain ⟨ih0, ih1, ihm⟩ := ih ys
          refine ⟨?_, ?_, ?_⟩
          · rw [hcmp, ih0, specEq_cons_cons]
            simp [hxy]
          · rw [hcmp, ih1, specLt_cons_cons]
            simp [hxy.symm, jsLt_irrefl]
          · rw [hcmp, ihm, specLt_cons_cons]
            simp [hxy, jsLt_irrefl]

/-- The comparison loop only ever returns 0, 1 or -1. -/
theorem cmpParts_values : ∀ xs ys,
    cmpParts xs ys = 0 ∨ cmpParts xs ys = 1 ∨ cmpParts xs ys = -1 := by
  intro xs
  induction xs with
  | nil =>
    intro ys
    rcases cmpVsZero_values (-1) ys with h | h | h
    · exact Or.inl h
    · exact Or.inr (Or.inr h)
    · exact Or.inr (Or.inl (by simpa using h))
  | cons x xs ih =>
    intro ys
    cases ys with
    | nil =>
      rcases cmpVsZero_values 1 (x :: xs) with h | h | h
      · exact Or.inl h
      · exact Or.inr (Or.inl h)
      · exact Or.inr (Or.inr (by simpa using h))
    | cons y ys =>
      simp only [cmpParts]
      split_ifs
      · exact Or.inr (Or.inl rfl)
      · exact Or.inr (Or.inr rfl)
      · exact ih ys

/-- Evaluation of the comparator at the part values the `Number` builtin
actually produces on signed and exponent parts: `Number("-1")` is -1 and
survives `|| 0`, so "1.-1" compares below "1" (the missing part reads 0),
and `Number("1e1")` is 10, so "1.1e1" compares above "1.9". -/
theorem cmpParts_signed_exponent_examples :
    cmpParts [JsNum.finite 1, JsNum.finite (-1)] [JsNum.finite 1] = -1
    ∧ cmpParts [JsNum.finite 1, JsNum.finite 10]
        [JsNum.finite 1, JsNum.finite 9] = 1
    ∧ cmpParts [JsNum.nan] [JsNum.finite 0] = 0 := by
  decide

/- ### Claim C8 -/

/-- C8: `compareVersions` splits both version strings on dots and maps each
part through the `Number` builtin — abstracted here as an arbitrary part
valuation into `JsNum`, which represents every JavaScript number exactly —
then compares position by position: part values are coerced by `|| 0`
(NaN and zero become 0, every other number, negative ones included, passes
through), a missing part reads as 0, and the comparator returns 0 exactly
when the coerced values agree at every position, 1 exactly when the first
version is positionwise greater in the JavaScript number order, and -1
exactly when it is positionwise smaller; the update check reports an
update exactly when the comparator places the latest version strictly
above the current one. -/
theorem compareVersions_spec (val : String → JsNum) (a b : String) :
    (compareVersions val a b = 0
       ↔ specEq (versionParts val a) (versionParts val b))
    ∧ (compareVersions val a b = 1
       ↔ specLt (versionParts val b) (versionParts val a))
    ∧ (compareVersions val a b = -1
       ↔ specLt (versionParts val a) (versionParts val b))
    ∧ (hasUpdate val a b = true
       ↔ specLt (versionParts val b) (versionParts val a)) := by
  obtain ⟨h0, h1, hm⟩ := cmpParts_spec (versionParts val a) (versionParts val b)
  refine ⟨h0, h1, hm, ?_⟩
  constructor
  · intro h
    have hgt : compareVersions val a b > 0 := of_decide_eq_true h
    rcases cmpParts_values (versionParts val a) (versionParts val b)
      with hv | hv | hv
    · have hv2 : compareVersions val a b = 0 := hv
      omega
    · exact h1.mp hv
    · have hv2 : compareVersions val a b = -1 := hv
      omega
  · intro h
    have he : compareVersions val a b = 1 := h1.mpr h
    have hgt : compareVersions val a b > 0 := by omega
    exact decide_eq_true hgt
